import Mathlib

/-!
# Verification of the Trade-Opportunities API core components

Shallow embedding of the repository's in-memory TTL cache
(`app/utils/cache.py`) and sliding-window rate limiter
(`app/middleware/rate_limiter.py`), with proofs of the specified
properties.

Modelling conventions:
* `datetime` values are modelled as `Int` seconds (so `timedelta(hours=1)`
  is `3600` and `datetime.utcnow()` becomes an explicit `now : Int`
  argument threaded through every operation).
* Python dicts become functions `String → Option _`; mutation becomes
  explicit state passing.
* `hashlib.md5(...).hexdigest()` is modelled as an arbitrary function
  parameter `String → String` (a deterministic function of the encoded
  string); the string-level `":".join` step is kept exactly.
* The ISO-8601 / `strftime` renderings of the reset timestamp are kept as
  the underlying timestamp value (calendar formatting is out of scope);
  `str(limit)` is kept as `toString limit`.
-/

namespace TradeAPI

/-! ## TTL cache (`app/utils/cache.py`) -/

/-- `CacheEntry`: a stored value together with its absolute expiry.
In the source, `__init__` computes `expires_at = utcnow() + ttl_seconds`;
here the constructor takes the precomputed `expires_at`. -/
structure CacheEntry (α : Type) where
  value : α
  expires_at : Int
deriving Repr, DecidableEq

/-- `CacheEntry.__init__`: `expires_at = datetime.utcnow() + timedelta(seconds=ttl_seconds)`. -/
def CacheEntry.make (v : α) (ttl_seconds : Int) (now : Int) : CacheEntry α :=
  ⟨v, now + ttl_seconds⟩

/-- `CacheEntry.is_expired`: `datetime.utcnow() > self.expires_at`. -/
def CacheEntry.is_expired (e : CacheEntry α) (now : Int) : Bool :=
  decide (e.expires_at < now)

/-- `InMemoryCache`: a dict from keys to entries plus the configured
default TTL (source default `3600`). -/
structure InMemoryCache (α : Type) where
  cache : String → Option (CacheEntry α)
  default_ttl : Int

/-- The empty cache produced by `InMemoryCache.__init__`. -/
def InMemoryCache.empty (α : Type) (default_ttl : Int := 3600) : InMemoryCache α :=
  ⟨fun _ => none, default_ttl⟩

/-- `InMemoryCache.get`: if the key is present and not expired return its
value; if present but expired, delete the entry and return `None`;
otherwise return `None`.  Returns the result together with the
post-call cache state. -/
def InMemoryCache.get (c : InMemoryCache α) (key : String) (now : Int) :
    Option α × InMemoryCache α :=
  match c.cache key with
  | some entry =>
      if entry.is_expired now then
        (none, ⟨fun k => if k = key then none else c.cache k, c.default_ttl⟩)
      else
        (some entry.value, c)
  | none => (none, c)

/-- `ttl = ttl or self.default_ttl`: `None` and the falsy `0` are both
replaced by the default; any other integer (including negatives, which
are truthy in Python) is kept. -/
def InMemoryCache.resolve_ttl (c : InMemoryCache α) (ttl : Option Int) : Int :=
  match ttl with
  | none => c.default_ttl
  | some t => if t = 0 then c.default_ttl else t

/-- `InMemoryCache.set`: unconditionally store a fresh entry for `key`
with expiry `now + resolved ttl`. -/
def InMemoryCache.set (c : InMemoryCache α) (key : String) (value : α)
    (ttl : Option Int) (now : Int) : InMemoryCache α :=
  ⟨fun k => if k = key then some (CacheEntry.make value (c.resolve_ttl ttl) now)
            else c.cache k,
   c.default_ttl⟩

/-- Insertion of one `k=v` pair into a list already sorted by key,
used to model Python's `sorted(kwargs.items())`. -/
def insertKwarg (p : String × String) : List (String × String) → List (String × String)
  | [] => [p]
  | q :: qs => if p.1 ≤ q.1 then p :: q :: qs else q :: insertKwarg p qs

/-- `sorted(kwargs.items())` (sorting by key). -/
def sortKwargs : List (String × String) → List (String × String)
  | [] => []
  | p :: ps => insertKwarg p (sortKwargs ps)

/-- The `key_string` built by `InMemoryCache.generate_key`: positional
arguments (already strings) followed by `"k=v"` renderings of the sorted
keyword arguments, joined with `":"`. -/
def InMemoryCache.generate_key_string (args : List String)
    (kwargs : List (String × String)) : String :=
  let key_parts := args ++ (sortKwargs kwargs).map (fun p => p.1 ++ "=" ++ p.2)
  String.intercalate ":" key_parts

/-- `InMemoryCache.generate_key`: the md5 hex digest of `key_string`.
`md5hex` abstracts `hashlib.md5(s.encode()).hexdigest()`, a deterministic
function of the joined string. -/
def InMemoryCache.generate_key (md5hex : String → String) (args : List String)
    (kwargs : List (String × String)) : String :=
  md5hex (InMemoryCache.generate_key_string args kwargs)

/-! ## Rate limiter (`app/middleware/rate_limiter.py`) -/

/-- `RateLimitEntry`: the per-identifier hourly limit and the list of
recorded request timestamps. -/
structure RateLimitEntry where
  limit : Nat
  requests : List Int
deriving Repr, DecidableEq

/-- The pruning step shared by `can_make_request` and `get_remaining`:
`[t for t in requests if t > cutoff]` with `cutoff = now - timedelta(hours=1)`. -/
def RateLimitEntry.prune (now : Int) (requests : List Int) : List Int :=
  requests.filter (fun t => decide (now - 3600 < t))

/-- `RateLimitEntry.can_make_request`: prune the window, store the pruned
list back, and report whether the pruned count is below the limit.
The source runs this under the entry's lock as ONE atomic section; the
pair returned here is (result, post-section entry state). -/
def RateLimitEntry.can_make_request (e : RateLimitEntry) (now : Int) :
    Bool × RateLimitEntry :=
  let pruned := RateLimitEntry.prune now e.requests
  (decide (pruned.length < e.limit), ⟨e.limit, pruned⟩)

/-- `RateLimitEntry.record_request`: append `utcnow()` to the window
(a second, separate atomic section in the source). -/
def RateLimitEntry.record_request (e : RateLimitEntry) (now : Int) : RateLimitEntry :=
  ⟨e.limit, e.requests ++ [now]⟩

/-- `RateLimitEntry.get_remaining`: prune, store the pruned list back,
and return `max(0, limit - len(requests))`. -/
def RateLimitEntry.get_remaining (e : RateLimitEntry) (now : Int) :
    Int × RateLimitEntry :=
  let pruned := RateLimitEntry.prune now e.requests
  (max 0 ((e.limit : Int) - (pruned.length : Int)), ⟨e.limit, pruned⟩)

/-- Python's `min` over a (nonempty) list; `none` on the empty list. -/
def listMin : List Int → Option Int
  | [] => none
  | t :: ts => some (ts.foldl min t)

/-- `RateLimitEntry.get_reset_time`: `min(requests) + 1 hour` when any
timestamps are recorded (NO pruning happens here), else `utcnow() + 1 hour`. -/
def RateLimitEntry.get_reset_time (e : RateLimitEntry) (now : Int) : Int :=
  match listMin e.requests with
  | some m => m + 3600
  | none => now + 3600

/-- The headers and detail data carried by the HTTP 429 rejection raised
by `RateLimiter.check_rate_limit`.  `reset_header` and `detail_reset`
hold the timestamp rendered by `isoformat()` / `strftime` in the source;
`detail_limit` is the limit named in the human-readable message. -/
structure RejectInfo where
  status_code : Nat
  limit_header : String
  remaining_header : String
  reset_header : Int
  detail_limit : Nat
  detail_reset : Int
deriving Repr, DecidableEq

/-- Outcome of one `check_rate_limit` call: normal return (Accepted) or
the raised `HTTPException` (Rejected). -/
inductive RLResult where
  | accepted
  | rejected (info : RejectInfo)
deriving Repr, DecidableEq

/-- `RateLimiter`: the registry dict from identifier to entry. -/
structure RateLimiter where
  limits : String → Option RateLimitEntry

/-- The fresh limiter produced by `RateLimiter.__init__`. -/
def RateLimiter.empty : RateLimiter := ⟨fun _ => none⟩

/-- The timestamp window currently recorded for an identifier
(empty when the identifier has no entry). -/
def RateLimiter.windowOf (rl : RateLimiter) (identifier : String) : List Int :=
  match rl.limits identifier with
  | some e => e.requests
  | none => []

/-- `RateLimiter.check_rate_limit`, run sequentially: look up (or lazily
create with the configured limit `cfg`) the identifier's entry, run
`can_make_request`; on capacity append the current timestamp and return
Accepted, otherwise raise 429 with headers
`X-RateLimit-Limit = str(cfg)`, `X-RateLimit-Remaining = "0"`,
`X-RateLimit-Reset = entry.get_reset_time()` and a detail message naming
the limit and the reset time.  The source's double-checked creation and
per-entry locking collapse to this in a sequential run. -/
def RateLimiter.check_rate_limit (cfg : Nat) (rl : RateLimiter)
    (identifier : String) (now : Int) : RLResult × RateLimiter :=
  let entry := match rl.limits identifier with
    | some e => e
    | none => (⟨cfg, []⟩ : RateLimitEntry)
  let checked := entry.can_make_request now
  if checked.1 then
    let e2 := checked.2.record_request now
    (RLResult.accepted, ⟨fun k => if k = identifier then some e2 else rl.limits k⟩)
  else
    let reset := checked.2.get_reset_time now
    (RLResult.rejected ⟨429, toString cfg, "0", reset, cfg, reset⟩,
     ⟨fun k => if k = identifier then some checked.2 else rl.limits k⟩)

/-- The `remaining(identifier)` operation (as exposed through
`get_rate_limit_headers`): the entry's `get_remaining` result, or the
full limit for an unknown identifier. -/
def RateLimiter.remaining (cfg : Nat) (rl : RateLimiter) (identifier : String)
    (now : Int) : Int :=
  match rl.limits identifier with
  | some e => (e.get_remaining now).1
  | none => (cfg : Int)

/-- `n` consecutive `check_rate_limit` calls for one identifier, all at
time `now`, starting from the empty limiter. -/
def iterCalls (cfg : Nat) (identifier : String) (now : Int) : Nat → RateLimiter
  | 0 => RateLimiter.empty
  | n + 1 =>
      (RateLimiter.check_rate_limit cfg (iterCalls cfg identifier now n)
        identifier now).2

/-- Run a sequence of `check_rate_limit` calls for one identifier at the
given times, collecting the results. -/
def runCalls (cfg : Nat) (identifier : String) : RateLimiter → List Int → List RLResult
  | _, [] => []
  | rl, t :: ts =>
      let r := RateLimiter.check_rate_limit cfg rl identifier t
      r.1 :: runCalls cfg identifier r.2 ts

/-- `reset_time` as the specification words it ("earliest IN-WINDOW
timestamp plus one hour; if no requests recorded, now plus one hour"):
for comparison with the source's `get_reset_time`, which does not prune. -/
def spec_reset_time (e : RateLimitEntry) (now : Int) : Int :=
  match listMin (RateLimitEntry.prune now e.requests) with
  | some m => m + 3600
  | none => now + 3600

/-- One interleaving of two concurrent `check_rate_limit` calls for the
same identifier on a shared entry.  Each call consists of two separately
locked atomic sections — `can_make_request` then (if admitted)
`record_request` — so the schedule check₁; check₂; record₁; record₂
respects each call's program order.  Returns the two admission decisions
and the final shared entry. -/
def raceSchedule (cfg : Nat) (now : Int) : Bool × Bool × RateLimitEntry :=
  let e0 : RateLimitEntry := ⟨cfg, []⟩
  let s1 := e0.can_make_request now
  let s2 := s1.2.can_make_request now
  let e3 := if s1.1 then s2.2.record_request now else s2.2
  let e4 := if s2.1 then e3.record_request now else e3
  (s1.1, s2.1, e4)

/-! ## Helper lemmas -/

/-- `List.foldl min` is bounded by its initial accumulator. -/
lemma foldl_min_le_init (ts : List Int) : ∀ a : Int, ts.foldl min a ≤ a := by
  induction ts with
  | nil => intro a; exact le_refl a
  | cons u us ih =>
      intro a
      exact le_trans (ih (min a u)) (min_le_left a u)

/-- `List.foldl min` is bounded by every list element. -/
lemma foldl_min_le_mem (ts : List Int) : ∀ a t : Int, t ∈ ts → ts.foldl min a ≤ t := by
  induction ts with
  | nil => intro a t ht; cases ht
  | cons u us ih =>
      intro a t ht
      rcases List.mem_cons.mp ht with h | h
      · subst h
        exact le_trans (foldl_min_le_init us (min a t)) (min_le_right a t)
      · exact ih (min a u) t h

/-- `List.foldl min` returns the accumulator or a list element. -/
lemma foldl_min_mem (ts : List Int) : ∀ a : Int, ts.foldl min a = a ∨ ts.foldl min a ∈ ts := by
  induction ts with
  | nil => intro a; left; rfl
  | cons u us ih =>
      intro a
      rcases ih (min a u) with h | h
      · rcases min_choice a u with hm | hm
        · left; rw [List.foldl_cons, h, hm]
        · right; rw [List.foldl_cons, h, hm]; exact List.mem_cons_self u us
      · right; exact List.mem_cons_of_mem u h

/-- `listMin` returns an element of the list that bounds all elements below. -/
lemma listMin_spec (l : List Int) (m : Int) (h : listMin l = some m) :
    m ∈ l ∧ ∀ t ∈ l, m ≤ t := by
  cases l with
  | nil => cases h
  | cons u us =>
      have hm : us.foldl min u = m := by
        simpa [listMin] using h
      constructor
      · rcases foldl_min_mem us u with h2 | h2
        · rw [← hm, h2]; exact List.mem_cons_self u us
        · rw [← hm]; exact List.mem_cons_of_mem u h2
      · intro t ht
        rcases List.mem_cons.mp ht with h2 | h2
        · subst h2; rw [← hm]; exact foldl_min_le_init us t
        · rw [← hm]; exact foldl_min_le_mem us u t h2

/-- Pruning a window of identical fresh timestamps keeps all of them. -/
lemma prune_replicate (now : Int) (n : Nat) :
    RateLimitEntry.prune now (List.replicate n now) = List.replicate n now := by
  apply List.filter_eq_self.mpr
  intro t ht
  rw [List.eq_of_mem_replicate ht]
  simp

/-- Normal form of one sequential `check_rate_limit` call, assuming every
stored entry for the identifier carries the configured limit (which holds
throughout a run, since entries are only ever created with it). -/
lemma check_rate_limit_eq (cfg : Nat) (rl : RateLimiter) (id1 : String) (now : Int)
    (hwf : ∀ e, rl.limits id1 = some e → e.limit = cfg) :
    RateLimiter.check_rate_limit cfg rl id1 now =
      (let pruned := RateLimitEntry.prune now (rl.windowOf id1)
       if pruned.length < cfg then
         (RLResult.accepted,
          ⟨fun k => if k = id1 then some ⟨cfg, pruned ++ [now]⟩ else rl.limits k⟩)
       else
         (RLResult.rejected ⟨429, toString cfg, "0",
            RateLimitEntry.get_reset_time ⟨cfg, pruned⟩ now, cfg,
            RateLimitEntry.get_reset_time ⟨cfg, pruned⟩ now⟩,
          ⟨fun k => if k = id1 then some ⟨cfg, pruned⟩ else rl.limits k⟩)) := by
  cases hm : rl.limits id1 with
  | none =>
      simp [RateLimiter.check_rate_limit, RateLimitEntry.can_make_request,
        RateLimitEntry.record_request, RateLimiter.windowOf, hm]
  | some e =>
      have hl : e.limit = cfg := hwf e hm
      simp [RateLimiter.check_rate_limit, RateLimitEntry.can_make_request,
        RateLimitEntry.record_request, RateLimiter.windowOf, hm, hl]

/-! ## Claim theorems -/

/-- **C1** (code_bug demonstration): `check_rate_limit` is NOT a single
atomic check-then-record.  `can_make_request` and `record_request` are
separate lock-protected sections, so the interleaving
check₁; check₂; record₁; record₂ of two concurrent calls for the same
identifier (limit 1, empty window) is possible — and under it BOTH calls
observe capacity and are admitted, leaving two timestamps in a window
whose limit is 1, contradicting the claim that exactly one call is
accepted. -/
theorem check_and_record_double_admit_race :
    (raceSchedule 1 0).1 = true ∧
    (raceSchedule 1 0).2.1 = true ∧
    (raceSchedule 1 0).2.2.requests = [0, 0] ∧
    (raceSchedule 1 0).2.2.limit < (raceSchedule 1 0).2.2.requests.length := by
  decide

/-- **C9**: the `":"`-join of `generate_key` has structural collisions:
`("a", "b:c")` and `("a:b", "c")` are distinct argument tuples with the
same joined key string, and whenever two argument tuples produce the same
joined string, `generate_key` returns the same key (deterministically,
whatever the digest function does). -/
theorem generate_key_structural_collision :
    InMemoryCache.generate_key_string ["a", "b:c"] [] =
      InMemoryCache.generate_key_string ["a:b", "c"] [] ∧
    (["a", "b:c"] : List String) ≠ ["a:b", "c"] ∧
    ∀ (md5hex : String → String) (args1 args2 : List String)
      (kw1 kw2 : List (String × String)),
      InMemoryCache.generate_key_string args1 kw1 =
        InMemoryCache.generate_key_string args2 kw2 →
      InMemoryCache.generate_key md5hex args1 kw1 =
        InMemoryCache.generate_key md5hex args2 kw2 := by
  refine ⟨by decide, by decide, ?_⟩
  intro md5hex args1 args2 kw1 kw2 h
  unfold InMemoryCache.generate_key
  rw [h]

/-- Witness for C9: at the concrete colliding pair (digest instantiated
with the identity function) the two keys coincide. -/
theorem generate_key_structural_collision_witness :
    InMemoryCache.generate_key_string ["a", "b:c"] [] =
      InMemoryCache.generate_key_string ["a:b", "c"] [] ∧
    InMemoryCache.generate_key (fun s => s) ["a", "b:c"] [] =
      InMemoryCache.generate_key (fun s => s) ["a:b", "c"] [] :=
  ⟨generate_key_structural_collision.1,
   generate_key_structural_collision.2.2 (fun s => s) ["a", "b:c"] ["a:b", "c"] [] []
     generate_key_structural_collision.1⟩

/-- **C2**: `get` returns a value only for a present, unexpired entry;
a present-but-expired entry is deleted by the call and yields `none`;
a missing key yields `none` with the cache untouched — so a missing key
and an expired key are indistinguishable to the caller, and a returned
value's `expires_at` has never passed. -/
theorem cache_get_spec (α : Type) (c : InMemoryCache α) (k : String) (now : Int) :
    (∀ v : α, (c.get k now).1 = some v →
      ∃ e : CacheEntry α, c.cache k = some e ∧ e.value = v ∧ ¬ e.expires_at < now) ∧
    (∀ e : CacheEntry α, c.cache k = some e → e.expires_at < now →
      (c.get k now).1 = none ∧ ((c.get k now).2).cache k = none) ∧
    (c.cache k = none → c.get k now = (none, c)) ∧
    (∀ e : CacheEntry α, c.cache k = some e → ¬ e.expires_at < now →
      c.get k now = (some e.value, c)) := by
  refine ⟨?_, ?_, ?_, ?_⟩
  · intro v hv
    unfold InMemoryCache.get at hv
    cases hc : c.cache k with
    | none => rw [hc] at hv; cases hv
    | some e =>
        rw [hc] at hv
        by_cases hex : e.expires_at < now
        · simp [CacheEntry.is_expired, hex] at hv
        · simp [CacheEntry.is_expired, hex] at hv
          exact ⟨e, rfl, hv, hex⟩
  · intro e he hex
    unfold InMemoryCache.get
    rw [he]
    simp [CacheEntry.is_expired, hex]
  · intro hc
    unfold InMemoryCache.get
    rw [hc]
  · intro e he hex
    unfold InMemoryCache.get
    rw [he]
    simp [CacheEntry.is_expired, hex]

/-- Witness for C2: a cache holding an entry for `"k"` that expired at
time `10`, read at time `11`: the read yields `none` and the entry is
gone afterwards. -/
theorem cache_get_spec_witness :
    ((⟨fun k => if k = "k" then some ⟨"v", 10⟩ else none, 3600⟩ :
        InMemoryCache String).cache "k" = some ⟨"v", 10⟩ ∧ (10 : Int) < 11) ∧
    (((⟨fun k => if k = "k" then some ⟨"v", 10⟩ else none, 3600⟩ :
        InMemoryCache String).get "k" 11).1 = none ∧
     (((⟨fun k => if k = "k" then some ⟨"v", 10⟩ else none, 3600⟩ :
        InMemoryCache String).get "k" 11).2).cache "k" = none) :=
  ⟨⟨by decide, by decide⟩,
   (cache_get_spec String ⟨fun k => if k = "k" then some ⟨"v", 10⟩ else none, 3600⟩
      "k" 11).2.1 ⟨"v", 10⟩ (by decide) (by decide)⟩

/-- **C7**: `set` overwrites unconditionally: after `set k a` then
`set k b` the (unique) entry for `k` holds `b` with the expiry reset to
the second call's `now` plus its resolved TTL; all other keys are
untouched; a `get` before that expiry returns `b`; and an omitted TTL
(`none`) resolves to the configured default. -/
theorem cache_set_spec (α : Type) (c : InMemoryCache α) (k : String) (a b : α)
    (t1 t2 : Option Int) (now1 now2 now3 : Int) :
    ((c.set k a t1 now1).set k b t2 now2).cache k =
      some ⟨b, now2 + c.resolve_ttl t2⟩ ∧
    (∀ k2, k2 ≠ k → ((c.set k a t1 now1).set k b t2 now2).cache k2 = c.cache k2) ∧
    (¬ now2 + c.resolve_ttl t2 < now3 →
      (((c.set k a t1 now1).set k b t2 now2).get k now3).1 = some b) ∧
    (c.set k a none now1).cache k = some ⟨a, now1 + c.default_ttl⟩ := by
  refine ⟨?_, ?_, ?_, ?_⟩
  · simp [InMemoryCache.set, CacheEntry.make, InMemoryCache.resolve_ttl]
  · intro k2 hk2
    simp [InMemoryCache.set, hk2]
  · intro hle
    have hcur : ((c.set k a t1 now1).set k b t2 now2).cache k =
        some ⟨b, now2 + c.resolve_ttl t2⟩ := by
      simp [InMemoryCache.set, CacheEntry.make, InMemoryCache.resolve_ttl]
    unfold InMemoryCache.get
    rw [hcur]
    simp [CacheEntry.is_expired, hle]
  · simp [InMemoryCache.set, CacheEntry.make, InMemoryCache.resolve_ttl]

/-- Witness for C7: on the empty cache, `set k "a" (ttl 10)` then
`set k "b" (ttl 10)` at time `0`, read at time `0`, returns `"b"`; the
unrelated key `"j"` stays absent. -/
theorem cache_set_spec_witness :
    (("j" : String) ≠ "k" ∧ ¬ (0 : Int) + 10 < 0) ∧
    ((((InMemoryCache.empty String).set "k" "a" (some 10) 0).set "k" "b"
        (some 10) 0).get "k" 0).1 = some "b" ∧
    (((InMemoryCache.empty String).set "k" "a" (some 10) 0).set "k" "b"
        (some 10) 0).cache "j" = none :=
  ⟨⟨by decide, by decide⟩,
   (cache_set_spec String (InMemoryCache.empty String) "k" "a" "b"
      (some 10) (some 10) 0 0 0).2.2.1 (by decide),
   (cache_set_spec String (InMemoryCache.empty String) "k" "a" "b"
      (some 10) (some 10) 0 0 0).2.1 "j" (by decide)⟩

/-- **C10**: a falsy explicit TTL of `0` is replaced by the configured
default (`ttl or self.default_ttl`), so `set k v 0` stores an entry
expiring `default_ttl = 3600` seconds in the future — not an immediately
expired one — and an immediate `get` returns the value. -/
theorem cache_set_zero_ttl (α : Type) (c : InMemoryCache α) (k : String) (v : α)
    (now : Int) (hd : c.default_ttl = 3600) :
    c.resolve_ttl (some 0) = c.default_ttl ∧
    (c.set k v (some 0) now).cache k = some ⟨v, now + 3600⟩ ∧
    ((c.set k v (some 0) now).get k now).1 = some v := by
  refine ⟨rfl, ?_, ?_⟩
  · simp [InMemoryCache.set, CacheEntry.make, InMemoryCache.resolve_ttl, hd]
  · simp [InMemoryCache.get, InMemoryCache.set, CacheEntry.make,
      CacheEntry.is_expired, InMemoryCache.resolve_ttl, hd]

/-- Witness for C10: on the default-TTL empty cache, `set "k" "v" 0` at
time `5` stores expiry `3605` and an immediate `get` returns `"v"`. -/
theorem cache_set_zero_ttl_witness :
    (InMemoryCache.empty String).default_ttl = 3600 ∧
    ((InMemoryCache.empty String).set "k" "v" (some 0) 5).cache "k" =
      some ⟨"v", 5 + 3600⟩ ∧
    (((InMemoryCache.empty String).set "k" "v" (some 0) 5).get "k" 5).1 =
      some "v" :=
  ⟨rfl,
   (cache_set_zero_ttl String (InMemoryCache.empty String) "k" "v" 5 rfl).2.1,
   (cache_set_zero_ttl String (InMemoryCache.empty String) "k" "v" 5 rfl).2.2⟩

/-- **C3**: each sequential `check_and_record` call first prunes the
identifier's window to the timestamps still within one hour of `now`,
is Accepted exactly when the pruned count is below the configured limit,
appends the current timestamp on acceptance (and only then); and with
limit 3, four consecutive calls within the same minute yield
Accepted, Accepted, Accepted, Rejected. -/
theorem check_and_record_spec (cfg : Nat) (rl : RateLimiter) (id1 : String) (now : Int)
    (hwf : ∀ e, rl.limits id1 = some e → e.limit = cfg) :
    ((RateLimiter.check_rate_limit cfg rl id1 now).1 = RLResult.accepted ↔
      (RateLimitEntry.prune now (rl.windowOf id1)).length < cfg) ∧
    ((RateLimiter.check_rate_limit cfg rl id1 now).2.windowOf id1 =
      if (RateLimitEntry.prune now (rl.windowOf id1)).length < cfg
      then RateLimitEntry.prune now (rl.windowOf id1) ++ [now]
      else RateLimitEntry.prune now (rl.windowOf id1)) ∧
    runCalls 3 "ip1" RateLimiter.empty [0, 10, 20, 30] =
      [RLResult.accepted, RLResult.accepted, RLResult.accepted,
       RLResult.rejected ⟨429, "3", "0", 3600, 3, 3600⟩] := by
  rw [check_rate_limit_eq cfg rl id1 now hwf]
  refine ⟨?_, ?_, by decide⟩
  · by_cases h : (RateLimitEntry.prune now (rl.windowOf id1)).length < cfg
    · simp [h]
    · simp [h]
  · by_cases h : (RateLimitEntry.prune now (rl.windowOf id1)).length < cfg
    · simp only [h, if_true]
      simp [RateLimiter.windowOf]
    · simp only [h, if_false]
      simp [RateLimiter.windowOf]

/-- Witness for C3 at the empty limiter, limit 3: the first call is
Accepted and its window condition holds. -/
theorem check_and_record_spec_witness :
    (∀ e : RateLimitEntry, RateLimiter.empty.limits "ip1" = some e → e.limit = 3) ∧
    ((RateLimiter.check_rate_limit 3 RateLimiter.empty "ip1" 0).1 = RLResult.accepted ↔
      (RateLimitEntry.prune 0 (RateLimiter.empty.windowOf "ip1")).length < 3) :=
  ⟨fun _ he => Option.noConfusion he,
   (check_and_record_spec 3 RateLimiter.empty "ip1" 0
      (fun _ he => Option.noConfusion he)).1⟩

/-- After `n ≤ cfg` consecutive calls at one instant, the identifier's
entry holds the configured limit and `n` copies of that timestamp. -/
lemma iterCalls_limits (cfg : Nat) (id1 : String) (now : Int) :
    ∀ n, n ≤ cfg →
      (iterCalls cfg id1 now n).limits id1 =
        if n = 0 then none else some ⟨cfg, List.replicate n now⟩ := by
  intro n
  induction n with
  | zero => intro _; simp [iterCalls, RateLimiter.empty]
  | succ k ih =>
      intro h
      have hk : k ≤ cfg := Nat.le_of_succ_le h
      have ihk := ih hk
      have hwf : ∀ e, (iterCalls cfg id1 now k).limits id1 = some e → e.limit = cfg := by
        intro e he
        rw [ihk] at he
        by_cases hk0 : k = 0
        · simp [hk0] at he
        · simp [hk0] at he
          rw [← he]
      have hwin : (iterCalls cfg id1 now k).windowOf id1 = List.replicate k now := by
        by_cases hk0 : k = 0
        · subst hk0
          simp [RateLimiter.windowOf, ihk]
        · simp [RateLimiter.windowOf, ihk, hk0]
      have hlt : k < cfg := h
      show (RateLimiter.check_rate_limit cfg (iterCalls cfg id1 now k) id1 now).2.limits
        id1 = _
      rw [check_rate_limit_eq cfg _ id1 now hwf]
      simp [hwin, prune_replicate, hlt, List.replicate_succ']

/-- **C6**: `remaining` is the configured limit minus the in-window count
after pruning, floored at zero, and its only state effect is the pruning
itself (no request is recorded); after exactly `n` accepted requests
within the window (`n < cfg`), `remaining` equals `cfg - n`. -/
theorem remaining_spec (cfg n : Nat) (hn : n < cfg) :
    RateLimiter.remaining cfg (iterCalls cfg "ip1" 0 n) "ip1" 0 =
      (cfg : Int) - (n : Int) ∧
    ∀ (e : RateLimitEntry) (now : Int),
      (e.get_remaining now).1 =
        max 0 ((e.limit : Int) - ((RateLimitEntry.prune now e.requests).length : Int)) ∧
      (e.get_remaining now).2.requests = RateLimitEntry.prune now e.requests := by
  constructor
  · have hl := iterCalls_limits cfg "ip1" 0 n (le_of_lt hn)
    have hge : (0 : Int) ≤ (cfg : Int) - (n : Int) := by
      have := hn
      omega
    by_cases hn0 : n = 0
    · subst hn0
      simp [RateLimiter.remaining, hl]
    · simp [RateLimiter.remaining, hl, hn0, RateLimitEntry.get_remaining,
        prune_replicate]
      omega
  · intro e now
    exact ⟨rfl, rfl⟩

/-- Witness for C6: with limit 3, after 2 accepted requests the remaining
quota is `3 - 2`. -/
theorem remaining_spec_witness :
    2 < 3 ∧
    RateLimiter.remaining 3 (iterCalls 3 "ip1" 0 2) "ip1" 0 = (3 : Int) - (2 : Int) :=
  ⟨by decide, (remaining_spec 3 2 (by decide)).1⟩

/-- **C8**: identifiers are isolated: a `check_and_record` call for one
identifier leaves every other identifier's entry — hence its timestamp
window and remaining quota — unchanged; and after exhausting the limit
for "ip1" (limit 1: Accepted then Rejected), a call for "ip2" is still
Accepted. -/
theorem rate_limiter_isolation (cfg : Nat) (rl : RateLimiter) (id1 id2 : String)
    (now : Int) (hne : id1 ≠ id2) :
    ((RateLimiter.check_rate_limit cfg rl id1 now).2.limits id2 = rl.limits id2) ∧
    ((RateLimiter.check_rate_limit cfg rl id1 now).2.windowOf id2 = rl.windowOf id2) ∧
    (∀ now2 : Int,
      RateLimiter.remaining cfg (RateLimiter.check_rate_limit cfg rl id1 now).2 id2 now2 =
        RateLimiter.remaining cfg rl id2 now2) ∧
    runCalls 1 "ip1" RateLimiter.empty [0, 0] =
      [RLResult.accepted, RLResult.rejected ⟨429, "1", "0", 3600, 1, 3600⟩] ∧
    (RateLimiter.check_rate_limit 1 (iterCalls 1 "ip1" 0 2) "ip2" 0).1 =
      RLResult.accepted := by
  have hbase : (RateLimiter.check_rate_limit cfg rl id1 now).2.limits id2 =
      rl.limits id2 := by
    simp only [RateLimiter.check_rate_limit]
    split <;> simp [Ne.symm hne]
  refine ⟨hbase, ?_, ?_, by decide, by decide⟩
  · simp [RateLimiter.windowOf, hbase]
  · intro now2
    simp [RateLimiter.remaining, hbase]

/-- Witness for C8: one call for "ip1" on the empty limiter leaves
"ip2" without an entry. -/
theorem rate_limiter_isolation_witness :
    ("ip1" : String) ≠ "ip2" ∧
    (RateLimiter.check_rate_limit 1 RateLimiter.empty "ip1" 0).2.limits "ip2" =
      RateLimiter.empty.limits "ip2" :=
  ⟨by decide, (rate_limiter_isolation 1 RateLimiter.empty "ip1" "ip2" 0 (by decide)).1⟩

/-- **C5**: when an identifier's pruned window has reached the limit,
`check_rate_limit` rejects with status 429, header values
`X-RateLimit-Limit = str(limit)`, `X-RateLimit-Remaining = "0"` and
`X-RateLimit-Reset` equal to the earliest in-window timestamp plus one
hour (also named, with the limit, in the detail message), and the call
appends no timestamp: the stored window is exactly the pruned one. -/
theorem reject_response_spec (cfg : Nat) (rl : RateLimiter) (id1 : String) (now : Int)
    (hwf : ∀ e, rl.limits id1 = some e → e.limit = cfg)
    (hpos : 0 < cfg)
    (hfull : cfg ≤ (RateLimitEntry.prune now (rl.windowOf id1)).length) :
    ∃ m : Int,
      listMin (RateLimitEntry.prune now (rl.windowOf id1)) = some m ∧
      m ∈ RateLimitEntry.prune now (rl.windowOf id1) ∧
      (∀ t ∈ RateLimitEntry.prune now (rl.windowOf id1), m ≤ t) ∧
      (RateLimiter.check_rate_limit cfg rl id1 now).1 =
        RLResult.rejected ⟨429, toString cfg, "0", m + 3600, cfg, m + 3600⟩ ∧
      (RateLimiter.check_rate_limit cfg rl id1 now).2.windowOf id1 =
        RateLimitEntry.prune now (rl.windowOf id1) := by
  obtain ⟨u, us, hPe⟩ : ∃ u us,
      RateLimitEntry.prune now (rl.windowOf id1) = u :: us := by
    cases hc : RateLimitEntry.prune now (rl.windowOf id1) with
    | nil => rw [hc] at hfull; simp at hfull; omega
    | cons u us => exact ⟨u, us, rfl⟩
  have hmin : listMin (RateLimitEntry.prune now (rl.windowOf id1)) =
      some (us.foldl min u) := by rw [hPe]; rfl
  obtain ⟨hmem, hle⟩ := listMin_spec _ _ hmin
  have hnlt : ¬ (RateLimitEntry.prune now (rl.windowOf id1)).length < cfg :=
    not_lt.mpr hfull
  refine ⟨us.foldl min u, hmin, hmem, hle, ?_, ?_⟩
  · rw [check_rate_limit_eq cfg rl id1 now hwf]
    simp only [hnlt, if_false]
    simp [RateLimitEntry.get_reset_time, hmin]
  · rw [check_rate_limit_eq cfg rl id1 now hwf]
    simp only [hnlt, if_false]
    simp [RateLimiter.windowOf]

/-- Witness for C5: limit 1 and a window holding timestamp 5, read at
time 10: the call is rejected with reset 3605 and the window keeps
exactly the one pruned timestamp. -/
theorem reject_response_spec_witness :
    ((∀ e : RateLimitEntry,
        (⟨fun k => if k = "ip1" then some ⟨1, [5]⟩ else none⟩ :
          RateLimiter).limits "ip1" = some e → e.limit = 1) ∧
      0 < 1 ∧
      1 ≤ (RateLimitEntry.prune 10
        ((⟨fun k => if k = "ip1" then some ⟨1, [5]⟩ else none⟩ :
          RateLimiter).windowOf "ip1")).length) ∧
    (RateLimiter.check_rate_limit 1
        (⟨fun k => if k = "ip1" then some ⟨1, [5]⟩ else none⟩ : RateLimiter)
        "ip1" 10).1 =
      RLResult.rejected ⟨429, "1", "0", 3605, 1, 3605⟩ := by
  have hwf : ∀ e : RateLimitEntry,
      (⟨fun k => if k = "ip1" then some ⟨1, [5]⟩ else none⟩ :
        RateLimiter).limits "ip1" = some e → e.limit = 1 := by
    intro e he
    simp at he
    rw [← he]
  refine ⟨⟨hwf, by decide, by decide⟩, ?_⟩
  obtain ⟨m, hm, -, -, hres, -⟩ :=
    reject_response_spec 1
      (⟨fun k => if k = "ip1" then some ⟨1, [5]⟩ else none⟩ : RateLimiter)
      "ip1" 10 hwf (by decide) (by decide)
  have h5 : listMin (RateLimitEntry.prune 10
      ((⟨fun k => if k = "ip1" then some ⟨1, [5]⟩ else none⟩ :
        RateLimiter).windowOf "ip1")) = some 5 := by decide
  rw [h5] at hm
  obtain rfl : (5 : Int) = m := Option.some.inj hm
  exact hres

/-- **C4** counterexample: `get_reset_time` does not prune.  On an entry
whose only recorded timestamp `0` is older than one hour at `now = 7200`,
the code reports `0 + 3600 = 3600` — a reset derived from a stale
timestamp — whereas the claimed earliest-IN-WINDOW-plus-one-hour value
(`spec_reset_time`, which prunes first) is `now + 3600 = 10800`, since no
in-window request exists. -/
theorem reset_time_stale_counterexample :
    RateLimitEntry.get_reset_time ⟨1, [0]⟩ 7200 = 3600 ∧
    spec_reset_time ⟨1, [0]⟩ 7200 = 10800 ∧
    RateLimitEntry.get_reset_time ⟨1, [0]⟩ 7200 ≠ spec_reset_time ⟨1, [0]⟩ 7200 ∧
    ¬ ((7200 : Int) - 3600 < 0) := by
  decide

/-- **C4** amended: the pruning reads (`can_make_request`,
`get_remaining`) leave only timestamps within one hour of `now`, so
stale timestamps are never counted there; `get_reset_time`, which does
not prune, agrees with the spec's earliest-in-window-plus-one-hour value
on every entry whose window is already pruned at `now`, and returns
`now + 3600` when no requests are recorded. -/
theorem window_pruning_amended (e : RateLimitEntry) (now : Int) :
    (∀ t ∈ (e.can_make_request now).2.requests, now - 3600 < t) ∧
    (∀ t ∈ (e.get_remaining now).2.requests, now - 3600 < t) ∧
    ((∀ t ∈ e.requests, now - 3600 < t) →
      e.get_reset_time now = spec_reset_time e now) ∧
    (e.requests = [] → e.get_reset_time now = now + 3600) := by
  refine ⟨?_, ?_, ?_, ?_⟩
  · intro t ht
    have h : t ∈ RateLimitEntry.prune now e.requests := ht
    simpa using (List.mem_filter.mp h).2
  · intro t ht
    have h : t ∈ RateLimitEntry.prune now e.requests := ht
    simpa using (List.mem_filter.mp h).2
  · intro h
    have hfil : RateLimitEntry.prune now e.requests = e.requests := by
      apply List.filter_eq_self.mpr
      intro t ht
      simpa using h t ht
    unfold spec_reset_time RateLimitEntry.get_reset_time
    rw [hfil]
  · intro h
    unfold RateLimitEntry.get_reset_time
    rw [h]
    rfl

/-- Witness for C4 (amended): an entry with the in-window timestamp 100
read at time 200 — `get_reset_time` agrees with the spec value. -/
theorem window_pruning_amended_witness :
    (∀ t ∈ ([100] : List Int), (200 : Int) - 3600 < t) ∧
    RateLimitEntry.get_reset_time ⟨1, [100]⟩ 200 = spec_reset_time ⟨1, [100]⟩ 200 :=
  ⟨by decide, (window_pruning_amended ⟨1, [100]⟩ 200).2.2.1 (by decide)⟩

end TradeAPI
